import Mathlib

/-!
Verification of the `toolkit` Go library (IgorCastilhos/toolkit).

This file gives a shallow embedding of the library's operations and proves
the specification claims about them.  Machine integers are modelled as `Nat`
with explicit `% 2 ^ 64` where Go's `uint64` conversion matters; fallible Go
functions return `Except`/`Option`; the ambient state touched by an operation
(response headers, the file system, files written by an upload) is passed and
returned explicitly.  External nondeterminism (the entropy source, the JSON
decoder's stream position, the HTTP client) is supplied as an explicit oracle
argument, so that every definition stays executable.
-/

namespace Toolkit

/-- The fixed 64-character alphabet `randomStringSource` from tools.go:
`"abcdefghijklmnopqrstuvwxyzABCDEFGHIJKLMNOPQRSTUVWXYZ0123456789_+"`. -/
def randomStringSource : List Char :=
  "abcdefghijklmnopqrstuvwxyzABCDEFGHIJKLMNOPQRSTUVWXYZ0123456789_+".toList

/-- Index computed for one character of `RandomString`.  The Go loop body is
`p, _ := rand.Prime(rand.Reader, len(r)); x, y := p.Uint64(), uint64(len(r));
s[i] = r[x%y]` with `len(r) = 64`, so the draw `p` (a prime of exactly 64
bits) is truncated to `uint64` (`% 2 ^ 64`) and reduced `% 64`. -/
def randomCharIdx (p : Nat) : Nat :=
  (p % 2 ^ 64) % 64

/-- The character produced from one prime draw `p`: `r[x % y]` in the source. -/
def randomChar (p : Nat) : Char :=
  randomStringSource.getD (randomCharIdx p) 'a'

/-- `Tools.RandomString n`, with the sequence of values drawn from
`rand.Prime(rand.Reader, 64)` supplied by the oracle `draw` (the `i`-th loop
iteration uses `draw i`). -/
def RandomString (n : Nat) (draw : Nat → Nat) : List Char :=
  (List.range n).map (fun i => randomChar (draw i))

/-- The `Tools` receiver struct (fields of the full version in the repo). -/
structure Tools where
  MaxFileSize : Nat
  AllowedFileTypes : List String
  MaxJSONSize : Nat
  AllowUnknownFields : Bool
deriving DecidableEq

/-- The `UploadedFile` result record. -/
structure UploadedFile where
  NewFileName : String
  OriginalFileName : String
  FileSize : Nat
deriving DecidableEq

/-- Character class of the regex `[^a-z\d]+` used by `Slugify`: `true` for the
characters that are NOT matched by it (ASCII lowercase letters and digits). -/
def isSlugChar (c : Char) : Bool :=
  ('a' ≤ c && c ≤ 'z') || ('0' ≤ c && c ≤ '9')

/-- `regEx.ReplaceAllString(s, "-")` for `regEx = [^a-z\d]+`: every maximal
run of non-slug characters is replaced by a single hyphen.  The flag records
whether the previous character was part of such a run (in which case the
current non-slug character extends the run instead of emitting another
hyphen). -/
def collapseRuns : Bool → List Char → List Char
  | _, [] => []
  | inRun, c :: rest =>
    if isSlugChar c then c :: collapseRuns false rest
    else if inRun then collapseRuns true rest
    else '-' :: collapseRuns true rest

/-- `strings.Trim(s, "-")`: remove leading and trailing hyphens. -/
def trimHyphens (l : List Char) : List Char :=
  ((l.dropWhile (fun c => c == '-')).reverse.dropWhile (fun c => c == '-')).reverse

/-- `Tools.Slugify` from tools.go, on the rune sequence of the input.  `Char.toLower`
agrees with Go's `strings.ToLower` on every character appearing in the spec's
examples (ASCII is mapped a-z, non-ASCII ideographs are left unchanged). -/
def Slugify (s : List Char) : Except String (List Char) :=
  if s = [] then Except.error "empty string not permitted"
  else
    let slug := trimHyphens (collapseRuns false (s.map Char.toLower))
    if slug.length = 0 then Except.error "after removing characters, slug is zero length"
    else Except.ok slug

/-- Errors that a `json.Decoder.Decode` call can produce mid-stream, as
distinguished by the `switch` in `ReadJSON`.  A clean end-of-stream
(`io.EOF`) is not among them: the decoder yields `io.EOF` exactly when the
remaining input is empty, which the embedding represents by the exhaustion of
the result list instead. -/
inductive JsonErr
  | syntaxErr (offset : Nat)
  | unexpectedEOF
  | typeMismatch (field : String) (offset : Nat)
  | unknownField (field : String)
  | tooLarge
  | invalidUnmarshal (msg : String)
  | other (msg : String)
deriving DecidableEq

/-- Result of one `Decode` call that consumed part of the stream. -/
inductive DecodeResult
  | ok
  | err (e : JsonErr)
deriving DecidableEq

/-- The error-message mapping of the `switch` statement in `ReadJSON`
(taxonomy of §7 of the spec). -/
def mapJsonErr (e : JsonErr) (maxBytes : Nat) : String :=
  match e with
  | JsonErr.syntaxErr off =>
    "body contains badly-formed JSON (at character " ++ toString off ++ ")"
  | JsonErr.unexpectedEOF => "body contains badly-formed JSON"
  | JsonErr.typeMismatch field off =>
    if field ≠ "" then "body contains incorrect JSON type for field \"" ++ field ++ "\""
    else "body contains incorrect JSON type (at character " ++ toString off ++ ")"
  | JsonErr.unknownField field => "body contains unknown key " ++ field
  | JsonErr.tooLarge => "body must not be larger than " ++ toString maxBytes
  | JsonErr.invalidUnmarshal msg => "error unmarshalling JSON: " ++ msg
  | JsonErr.other msg => msg

/-- `Tools.ReadJSON`.  The request body is abstracted by the behaviour of the
JSON decoder on it: `body` is the list of outcomes of successive `Decode`
calls while values (or errors) remain, after which every further `Decode`
returns a clean `io.EOF`.  Returns `some message` for the error return and
`none` for `nil`.  The first `Decode` goes into the caller's target; the
second `Decode` (into `&struct{}{}`) returns `io.EOF` exactly when the
stream was exhausted by the first, and the code errors on anything else. -/
def ReadJSON (t : Tools) (body : List DecodeResult) : Option String :=
  let maxBytes := if t.MaxJSONSize ≠ 0 then t.MaxJSONSize else 1024 * 1024
  match body with
  | [] => some "body must not be empty"
  | DecodeResult.err e :: _ => some (mapJsonErr e maxBytes)
  | DecodeResult.ok :: rest =>
    match rest with
    | [] => none
    | _ :: _ => some "body must contain only one JSON value"

/-- Response header state: an association list of header names to values,
with at most one entry per name (Go's `http.Header` map). -/
abbrev HeaderMap := List (String × List String)

/-- Assignment `h[k] = v` on a header map: replace the entry for `k`, or add
one.  Both `writer.Header()[key] = value` and `writer.Header().Set` have this
effect (keys are taken already canonicalized, and a well-formed map holds at
most one entry per key). -/
def headerSet : HeaderMap → String → List String → HeaderMap
  | [], k, v => [(k, v)]
  | kv :: rest, k, v => if kv.1 = k then (k, v) :: rest else kv :: headerSet rest k v

/-- Header lookup (`writer.Header()[k]`). -/
def headerGet (h : HeaderMap) (k : String) : Option (List String) :=
  (h.find? (fun kv => kv.1 == k)).map Prod.snd

/-- The parts of an `http.ResponseWriter` that `WriteJSON` touches. -/
structure ResponseWriter where
  headers : HeaderMap
  status : Option Nat
  body : List String
deriving DecidableEq

/-- `Tools.WriteJSON`.  `marshalled` is the result of `json.Marshal(data)`
(`none` for a marshalling error, which is returned unchanged).  `headers` is
the variadic trailing argument; when non-empty, every entry of `headers[0]`
is written into the response header map, and only afterwards is
`Content-Type` set to `application/json`.  Then the status code and the
serialized bytes are written. -/
def WriteJSON (w : ResponseWriter) (status : Nat) (marshalled : Option String)
    (headers : List HeaderMap) : Except Unit ResponseWriter :=
  match marshalled with
  | none => Except.error ()
  | some out =>
    let hs1 := match headers with
      | [] => w.headers
      | h :: _ => h.foldl (fun acc kv => headerSet acc kv.1 kv.2) w.headers
    let hs2 := headerSet hs1 "Content-Type" ["application/json"]
    Except.ok { headers := hs2, status := some status, body := w.body ++ [out] }

/-- The parts of an `http.Response` that `PushJSONToRemote` touches: the
status code and the state of the response body stream. -/
structure HTTPResponse where
  statusCode : Nat
  bodyClosed : Bool
  bodyRead : Bool
deriving DecidableEq

/-- `Tools.PushJSONToRemote`.  `marshalled` is the result of
`json.Marshal(data)`; `requestOk` is whether `http.NewRequest` succeeded on
the given uri; `doResult` is the outcome of `httpClient.Do(request)`.  On the
success path the function runs `defer response.Body.Close()` before
returning, and returns the response together with its status code. -/
def PushJSONToRemote (marshalled : Option String) (requestOk : Bool)
    (doResult : Except Unit HTTPResponse) : Except Unit (HTTPResponse × Nat) :=
  match marshalled with
  | none => Except.error ()
  | some _jsonData =>
    if !requestOk then Except.error ()
    else
      match doResult with
      | Except.error _ => Except.error ()
      | Except.ok response =>
        let returned : HTTPResponse := { response with bodyClosed := true }
        Except.ok (returned, response.statusCode)

/-- A file-system node: a regular file, or a directory with its mode. -/
inductive FNode
  | file
  | dir (mode : Nat)
deriving DecidableEq

/-- The file system: a list of (path, node) entries, at most one per path. -/
structure FS where
  entries : List (List String × FNode)
deriving DecidableEq

/-- First-match lookup in an entry list. -/
def lookupEntries : List (List String × FNode) → List String → Option FNode
  | [], _ => none
  | e :: rest, p => if e.1 = p then some e.2 else lookupEntries rest p

/-- Look a path up in the file system. -/
def FS.lookup (fs : FS) (p : List String) : Option FNode :=
  lookupEntries fs.entries p

/-- Whether some strict ancestor of `p` exists as a regular file.  `os.Stat`
then fails with `ENOTDIR`, for which `os.IsNotExist` is `false`. -/
def hasFileAncestor (fs : FS) (p : List String) : Bool :=
  (List.range p.length).any (fun i => fs.lookup (p.take i) == some FNode.file)

/-- Outcome of `os.Stat`. -/
inductive StatResult
  | found (n : FNode)
  | errNotExist
  | errNotDir
deriving DecidableEq

/-- `os.Stat` on the modelled file system: traversing through a file
component fails with `ENOTDIR`; otherwise the path is found or `ENOENT`. -/
def stat (fs : FS) (p : List String) : StatResult :=
  if hasFileAncestor fs p then StatResult.errNotDir
  else
    match fs.lookup p with
    | some n => StatResult.found n
    | none => StatResult.errNotExist

/-- Helper for `os.MkdirAll`: create the components of `todo` under the
already-traversed prefix `done`, left to right.  An existing directory is
kept, an existing file is an error, a missing component is created as a
directory with the given mode. -/
def mkdirAllAux (mode : Nat) : FS → List String → List String → Except Unit FS
  | fs, _, [] => Except.ok fs
  | fs, done, c :: rest =>
    let cur := done ++ [c]
    match fs.lookup cur with
    | some (FNode.dir _) => mkdirAllAux mode fs cur rest
    | some FNode.file => Except.error ()
    | none => mkdirAllAux mode ⟨fs.entries ++ [(cur, FNode.dir mode)]⟩ cur rest

/-- `os.MkdirAll(p, mode)`. -/
def mkdirAll (fs : FS) (p : List String) (mode : Nat) : Except Unit FS :=
  mkdirAllAux mode fs [] p

/-- `Tools.CreateDirIfNotExists` from tools.go.  The returned flag is `true`
exactly when the Go function returns a non-nil error.  The code calls
`os.Stat` and runs `os.MkdirAll(path, 0755)` only when `os.IsNotExist`
holds of the stat error; any other stat outcome (the path exists, or the
stat failed with an error other than `ENOENT`) falls through to `return
nil`. -/
def CreateDirIfNotExists (fs : FS) (p : List String) : FS × Bool :=
  match stat fs p with
  | StatResult.found _ => (fs, false)
  | StatResult.errNotDir => (fs, false)
  | StatResult.errNotExist =>
    match mkdirAll fs p 0o755 with
    | Except.ok fs' => (fs', false)
    | Except.error _ => (fs, true)

/-- `strings.EqualFold` restricted to the ASCII folding that the MIME-type
strings in play use. -/
def eqFold (a b : String) : Bool :=
  a.toList.map Char.toLower == b.toList.map Char.toLower

/-- `filepath.Ext(name)`: the suffix beginning at the final dot in the final
slash-separated element of the path; empty when there is none. -/
def fileExt (name : String) : String :=
  let rev := name.toList.reverse
  let pre := rev.takeWhile (fun c => c ≠ '.' && c ≠ '/')
  match rev.drop pre.length with
  | '.' :: _ => String.mk ('.' :: pre.reverse)
  | _ => ""

/-- `filepath.Join(dir, name)` for the clean inputs in play. -/
def joinPath (dir name : String) : String :=
  dir ++ "/" ++ name

/-- One file part of a multipart request, abstracted by the behaviour of the
operations `UploadFiles` performs on it: whether `hdr.Open()`, the 512-byte
`Read`, the `Seek`, `os.Create` and `io.Copy` succeed, the MIME type
`http.DetectContentType` sniffs from the 512-byte prefix, and the byte count
`io.Copy` reports. -/
structure FilePart where
  filename : String
  openOk : Bool
  readOk : Bool
  sniffedType : String
  seekOk : Bool
  createOk : Bool
  copyOk : Bool
  copySize : Nat
deriving DecidableEq

/-- A multipart request, abstracted for `ParseMultipartForm`: its total size,
whether the multipart body is well formed, and the file parts in the order
the decoder yields them (flattening the field-name map). -/
structure MultipartRequest where
  bodySize : Nat
  wellFormed : Bool
  parts : List FilePart
deriving DecidableEq

/-- `r.ParseMultipartForm(cap)` succeeds when the body is well formed and
within the cap (the spec's reading of the size limit). -/
def parseMultipartForm (r : MultipartRequest) (cap : Nat) : Bool :=
  r.wellFormed && r.bodySize ≤ cap

/-- The errors `UploadFiles` can return.  `tooBig` is
`errors.New("the uploaded file is too big")`, `typeNotPermitted` is
`errors.New("the uploaded file type is not permitted")`, and the rest are
the propagated I/O errors of the named operations. -/
inductive UploadError
  | tooBig
  | typeNotPermitted
  | openError
  | readError
  | seekError
  | createError
  | copyError
deriving DecidableEq

/-- The body of the per-file closure inside `UploadFiles` (tools.go lines
84-150).  Returns the path of the file created on disk by `os.Create`, if
any (a created file stays on disk even when the subsequent `io.Copy`
fails), together with the closure's return value. -/
def processPart (t : Tools) (renameFile : Bool) (randName : String)
    (uploadDir : String) (p : FilePart) :
    Option String × Except UploadError UploadedFile :=
  if !p.openOk then (none, Except.error UploadError.openError)
  else if !p.readOk then (none, Except.error UploadError.readError)
  else
    let fileType := p.sniffedType
    let allowed := if t.AllowedFileTypes.length > 0
      then t.AllowedFileTypes.any (fun ty => eqFold fileType ty)
      else true
    if !allowed then (none, Except.error UploadError.typeNotPermitted)
    else if !p.seekOk then (none, Except.error UploadError.seekError)
    else
      let newFileName := if renameFile then randName ++ fileExt p.filename else p.filename
      if !p.createOk then (none, Except.error UploadError.createError)
      else if !p.copyOk then
        (some (joinPath uploadDir newFileName), Except.error UploadError.copyError)
      else
        (some (joinPath uploadDir newFileName),
          Except.ok ⟨newFileName, p.filename, p.copySize⟩)

/-- The part loop of `UploadFiles`.  Mirrors the Go assignment
`uploadedFiles, err = func(uploadedFiles []*UploadedFile) (...)` exactly: on
a per-file error the closure returns `nil, err`, so the accumulated slice is
overwritten with `nil` before `return uploadedFiles, err` runs.  The third
component accumulates the paths of the files created on disk. -/
def uploadLoop (t : Tools) (renameFile : Bool) (randNames : Nat → String)
    (uploadDir : String) :
    List FilePart → Nat → List UploadedFile → List String →
    List UploadedFile × Option UploadError × List String
  | [], _, acc, written => (acc, none, written)
  | p :: rest, i, acc, written =>
    match processPart t renameFile (randNames i) uploadDir p with
    | (w, Except.error e) => ([], some e, written ++ w.toList)
    | (w, Except.ok f) =>
      uploadLoop t renameFile randNames uploadDir rest (i + 1) (acc ++ [f]) (written ++ w.toList)

/-- `Tools.UploadFiles` from tools.go.  `randNames i` supplies the value of
`t.RandomString(25)` for the `i`-th processed part.  The result is the
returned slice, the returned error, and the paths of the files written to
disk (the persisted side effects).  The `CreateDirIfNotExists` call on
`uploadDir` never errors in the file-system model of §4.3, so its
error-propagation branch (lines 70-73) cannot fire and the directory state
is not threaded here. -/
def UploadFiles (t : Tools) (r : MultipartRequest) (uploadDir : String)
    (renameFile : Bool) (randNames : Nat → String) :
    List UploadedFile × Option UploadError × List String :=
  if parseMultipartForm r (if t.MaxFileSize = 0 then 1024 * 1024 * 1024 else t.MaxFileSize) then
    uploadLoop t renameFile randNames uploadDir r.parts 0 [] []
  else
    ([], some UploadError.tooBig, [])

/-- Result of `Tools.UploadOneFile`.  `panicIndexOutOfRange` stands for the
runtime panic of the expression `files[0]` when the slice is empty. -/
inductive OneFileResult
  | failure (e : UploadError)
  | panicIndexOutOfRange
  | success (f : UploadedFile)
deriving DecidableEq

/-- `Tools.UploadOneFile` from tools.go: forwards to `UploadFiles` and, when
no error came back, evaluates `files[0]`. -/
def UploadOneFile (t : Tools) (r : MultipartRequest) (uploadDir : String)
    (rename : List Bool) (randNames : Nat → String) : OneFileResult :=
  let renameFile := match rename with
    | [] => true
    | b :: _ => b
  match UploadFiles t r uploadDir renameFile randNames with
  | (_, some e, _) => OneFileResult.failure e
  | (files, none, _) =>
    match files with
    | [] => OneFileResult.panicIndexOutOfRange
    | f :: _ => OneFileResult.success f

/-! ## Theorems -/

theorem randomStringSource_length : randomStringSource.length = 64 := by
  decide

theorem randomCharIdx_lt (p : Nat) : randomCharIdx p < 64 :=
  Nat.mod_lt _ (by norm_num)

theorem randomChar_mem (p : Nat) : randomChar p ∈ randomStringSource := by
  have h : randomCharIdx p < randomStringSource.length := by
    rw [randomStringSource_length]
    exact randomCharIdx_lt p
  have heq : randomChar p = randomStringSource[randomCharIdx p] :=
    List.getD_eq_getElem _ _ h
  rw [heq]
  exact List.getElem_mem h

/-- C7: for all `n ≥ 0`, `RandomString n` returns a string of length exactly
`n`, every character of which belongs to the fixed 64-character alphabet
`randomStringSource`, whatever values the entropy source supplies. -/
theorem randomString_length_and_alphabet (n : Nat) (draw : Nat → Nat) :
    (RandomString n draw).length = n ∧
      ∀ c, c ∈ RandomString n draw → c ∈ randomStringSource := by
  constructor
  · simp [RandomString]
  · intro c hc
    simp only [RandomString, List.mem_map] at hc
    obtain ⟨i, _, rfl⟩ := hc
    exact randomChar_mem (draw i)

theorem randomString_length_and_alphabet_witness :
    (RandomString 3 (fun i => i)).length = 3 ∧ 'b' ∈ randomStringSource :=
  ⟨(randomString_length_and_alphabet 3 (fun i => i)).1,
    (randomString_length_and_alphabet 3 (fun i => i)).2 'b' (by decide)⟩

theorem randomStringSource_getD_ne_a :
    ∀ i, i < 64 → i ≠ 0 → randomStringSource.getD i 'a' ≠ 'a' := by
  decide

theorem randomCharIdx_ne_zero (p : Nat) (hp : Nat.Prime p) : randomCharIdx p ≠ 0 := by
  intro h0
  simp only [randomCharIdx] at h0
  have h64 : (64 : Nat) ∣ p % 2 ^ 64 := Nat.dvd_of_mod_eq_zero h0
  have h2 : (2 : Nat) ∣ p % 2 ^ 64 := dvd_trans (by norm_num) h64
  have h2p : (2 : Nat) ∣ p := (Nat.dvd_mod_iff (by norm_num)).mp h2
  rcases hp.eq_one_or_self_of_dvd 2 h2p with h | h
  · exact absurd h (by norm_num)
  · rw [← h] at h0
    exact absurd h0 (by decide)

/-- C2: refuted — the code draws `p` from `rand.Prime(rand.Reader, 64)` and
indexes the alphabet at `p % 64`, which is never `0` for a prime (and is odd
for every 64-bit prime), so the character `'a'` (index 0) can never be
produced at any position: the distribution is not uniform over the
64-character alphabet, half of which is unreachable. -/
theorem randomString_prime_draw_never_a :
    (∀ p, Nat.Prime p → randomChar p ≠ 'a') ∧
      ∀ n draw, (∀ i, Nat.Prime (draw i)) → 'a' ∉ RandomString n draw := by
  have hchar : ∀ p, Nat.Prime p → randomChar p ≠ 'a' := by
    intro p hp
    exact randomStringSource_getD_ne_a _ (randomCharIdx_lt p) (randomCharIdx_ne_zero p hp)
  refine ⟨hchar, ?_⟩
  intro n draw hdraw hmem
  simp only [RandomString, List.mem_map] at hmem
  obtain ⟨i, _, hi⟩ := hmem
  exact hchar (draw i) (hdraw i) hi

theorem randomString_prime_draw_never_a_witness : randomChar 2 ≠ 'a' :=
  randomString_prime_draw_never_a.1 2 (by norm_num)

/-- C3: after a successful first decode, `ReadJSON` attempts a second decode
and returns the error "body must contain only one JSON value" exactly when
the stream was not cleanly exhausted; a body holding a single JSON value
that decodes into the target (`rest = []`) yields no error. -/
theorem readJSON_second_decode (t : Tools) (rest : List DecodeResult) :
    ReadJSON t (DecodeResult.ok :: rest) =
      (if rest = [] then none else some "body must contain only one JSON value") := by
  cases rest <;> rfl

/-- C6: `Slugify` fails with the empty-input error on `""`, fails with the
empty-result error whenever the hyphen-collapsing transform yields the empty
string, returns the transform (lower-case, collapse every maximal non-slug
run to a hyphen, trim hyphens) otherwise, and maps the spec's example to
`"now-is-the-time-to-go-hit-the-gym-and-break-some-records"`. -/
theorem slugify_spec :
    Slugify "now, is the time to GO HIT the gym!! and break***some+++records?!".toList =
        Except.ok "now-is-the-time-to-go-hit-the-gym-and-break-some-records".toList ∧
      Slugify [] = Except.error "empty string not permitted" ∧
      (∀ s, s ≠ [] → trimHyphens (collapseRuns false (s.map Char.toLower)) = [] →
        Slugify s = Except.error "after removing characters, slug is zero length") ∧
      (∀ s, s ≠ [] → trimHyphens (collapseRuns false (s.map Char.toLower)) ≠ [] →
        Slugify s = Except.ok (trimHyphens (collapseRuns false (s.map Char.toLower)))) := by
  refine ⟨by rfl, by rfl, ?_, ?_⟩
  · intro s hs htr
    simp [Slugify, hs, htr]
  · intro s hs hne
    simp [Slugify, hs, List.length_eq_zero, hne]

theorem slugify_spec_witness :
    (['!', 'a'] : List Char) ≠ [] ∧
      Slugify ['!', 'a'] =
        Except.ok (trimHyphens (collapseRuns false (['!', 'a'].map Char.toLower))) :=
  ⟨by decide, slugify_spec.2.2.2 ['!', 'a'] (by decide) (by decide)⟩

/-- C9 counterexample: on a successful push, the returned response has had
its body closed by the function's own `defer response.Body.Close()` — here a
response arriving with an open body is returned with `bodyClosed = true`,
contradicting "does not close the body". -/
theorem pushJSON_closes_body_counterexample :
    PushJSONToRemote (some "null") true
        (Except.ok { statusCode := 200, bodyClosed := false, bodyRead := false }) =
      Except.ok ({ statusCode := 200, bodyClosed := true, bodyRead := false }, 200) := by
  rfl

/-- C9 amended: on success `PushJSONToRemote` returns the raw response with
its status code, having performed no read of the body (`bodyRead` is passed
through untouched), but it closes the response body before returning, so the
caller does not own closing it. -/
theorem pushJSON_success_returns_closed_body (s : String) (resp : HTTPResponse) :
    PushJSONToRemote (some s) true (Except.ok resp) =
      Except.ok ({ resp with bodyClosed := true }, resp.statusCode) := by
  rfl

/-- C10: a well-formed multipart request with zero file parts makes
`UploadFiles` return the empty list with a nil error, upon which
`UploadOneFile` evaluates `files[0]` on the empty slice — an index
out-of-range runtime panic, not a `NoFileProvided` error. -/
theorem uploadOneFile_zero_parts_panics (t : Tools) (dir : String)
    (rename : List Bool) (names : Nat → String) :
    UploadOneFile t ⟨0, true, []⟩ dir rename names = OneFileResult.panicIndexOutOfRange := by
  cases rename <;>
    simp [UploadOneFile, UploadFiles, parseMultipartForm, uploadLoop]

theorem processPart_snd_ne_tooBig (t : Tools) (rn : Bool) (name dir : String)
    (p : FilePart) :
    (processPart t rn name dir p).2 ≠ Except.error UploadError.tooBig := by
  unfold processPart
  repeat' split
  all_goals try simp
  all_goals (split <;> simp)

theorem uploadLoop_snd_ne_tooBig (t : Tools) (rn : Bool) (names : Nat → String)
    (dir : String) :
    ∀ (parts : List FilePart) (i : Nat) (acc : List UploadedFile) (written : List String),
      (uploadLoop t rn names dir parts i acc written).2.1 ≠ some UploadError.tooBig := by
  intro parts
  induction parts with
  | nil => intro i acc written; simp [uploadLoop]
  | cons p rest ih =>
    intro i acc written
    simp only [uploadLoop]
    rcases hp : processPart t rn (names i) dir p with ⟨w, res⟩
    cases res with
    | error e =>
      simp only []
      intro hcontra
      have he : e = UploadError.tooBig := by
        simpa using hcontra
      apply processPart_snd_ne_tooBig t rn (names i) dir p
      rw [hp, he]
    | ok f => exact ih (i + 1) (acc ++ [f]) (written ++ w.toList)

/-- C4 counterexample: a malformed multipart request whose size (0 bytes) is
far below the effective cap still makes `UploadFiles` return the
`tooBig` ("the uploaded file is too big") error, so that error is not
reserved for the size cap being exceeded. -/
theorem uploadFiles_malformed_reported_tooBig :
    UploadFiles ⟨0, [], 0, false⟩ ⟨0, false, []⟩ "./uploads" true (fun _ => "x") =
        ([], some UploadError.tooBig, []) ∧ 0 ≤ 1024 * 1024 * 1024 :=
  ⟨rfl, by norm_num⟩

/-- C4 amended: `UploadFiles` reports the `tooBig` error exactly when
`ParseMultipartForm` fails — whether because the body exceeds the effective
cap or because the multipart data is malformed; the code maps both parse
failures to the same "the uploaded file is too big" error. -/
theorem uploadFiles_tooBig_iff_parse_fails (t : Tools) (r : MultipartRequest)
    (dir : String) (rn : Bool) (names : Nat → String) :
    (UploadFiles t r dir rn names).2.1 = some UploadError.tooBig ↔
      parseMultipartForm r (if t.MaxFileSize = 0 then 1024 * 1024 * 1024 else t.MaxFileSize)
        = false := by
  unfold UploadFiles
  by_cases hp : parseMultipartForm r
      (if t.MaxFileSize = 0 then 1024 * 1024 * 1024 else t.MaxFileSize) = true
  · simp [hp, uploadLoop_snd_ne_tooBig t rn names dir r.parts 0 [] []]
  · simp only [Bool.not_eq_true] at hp
    simp [hp]

theorem uploadLoop_nil_of_error (t : Tools) (rn : Bool) (names : Nat → String)
    (dir : String) :
    ∀ (parts : List FilePart) (i : Nat) (acc : List UploadedFile) (written : List String),
      (uploadLoop t rn names dir parts i acc written).2.1 = none ∨
        (uploadLoop t rn names dir parts i acc written).1 = [] := by
  intro parts
  induction parts with
  | nil => intro i acc written; left; rfl
  | cons p rest ih =>
    intro i acc written
    simp only [uploadLoop]
    rcases processPart t rn (names i) dir p with ⟨w, res⟩
    cases res with
    | error e => right; rfl
    | ok f => exact ih (i + 1) (acc ++ [f]) (written ++ w.toList)

/-- C1: refuted — whenever `UploadFiles` returns a non-nil error, the slice
it returns is `nil`, never the partial list: the Go assignment
`uploadedFiles, err = func(uploadedFiles)(…)` overwrites the accumulated
slice with the closure's `nil` return before `return uploadedFiles, err`.
Concretely, a batch whose first file is fully persisted and whose second
file fails the type check returns `([], typeNotPermitted)` even though the
first file was written to disk (`./uploads/a.png`). -/
theorem uploadFiles_error_returns_nil_list :
    (∀ (t : Tools) (r : MultipartRequest) (dir : String) (rn : Bool) (names : Nat → String),
        (UploadFiles t r dir rn names).2.1 = none ∨ (UploadFiles t r dir rn names).1 = []) ∧
      UploadFiles ⟨0, ["image/png"], 0, false⟩
          ⟨100, true, [⟨"a.png", true, true, "image/png", true, true, true, 42⟩,
                       ⟨"b.txt", true, true, "text/plain", true, true, true, 7⟩]⟩
          "./uploads" false (fun _ => "x") =
        ([], some UploadError.typeNotPermitted, ["./uploads/a.png"]) := by
  constructor
  · intro t r dir rn names
    unfold UploadFiles
    by_cases hp : parseMultipartForm r
        (if t.MaxFileSize = 0 then 1024 * 1024 * 1024 else t.MaxFileSize) = true
    · rw [if_pos hp]
      exact uploadLoop_nil_of_error t rn names dir r.parts 0 [] []
    · rw [if_neg hp]
      right
      rfl
  · decide

theorem headerGet_nil (k : String) : headerGet [] k = none := rfl

theorem headerGet_cons (kv : String × List String) (rest : HeaderMap) (k : String) :
    headerGet (kv :: rest) k = if kv.1 = k then some kv.2 else headerGet rest k := by
  by_cases hk : kv.1 = k <;> simp [headerGet, List.find?_cons, hk]

theorem headerGet_headerSet_self (h : HeaderMap) (k : String) (v : List String) :
    headerGet (headerSet h k v) k = some v := by
  induction h with
  | nil => simp [headerSet, headerGet_cons, headerGet_nil]
  | cons kv rest ih =>
    by_cases hk : kv.1 = k
    · simp [headerSet, hk, headerGet_cons]
    · simp [headerSet, hk, headerGet_cons, ih]

theorem headerGet_headerSet_other (h : HeaderMap) (k : String) (v : List String)
    (k' : String) (hne : k' ≠ k) :
    headerGet (headerSet h k v) k' = headerGet h k' := by
  have hne' : k ≠ k' := Ne.symm hne
  induction h with
  | nil => simp [headerSet, headerGet_cons, headerGet_nil, hne']
  | cons kv rest ih =>
    by_cases hk : kv.1 = k
    · simp [headerSet, hk, headerGet_cons, hne']
    · simp [headerSet, hk, headerGet_cons, ih]

theorem headerGet_fold_not_mem (hdr : HeaderMap) :
    ∀ (acc : HeaderMap) (k : String), k ∉ hdr.map Prod.fst →
      headerGet (hdr.foldl (fun a kv => headerSet a kv.1 kv.2) acc) k = headerGet acc k := by
  induction hdr with
  | nil => intro acc k _; rfl
  | cons kv rest ih =>
    intro acc k hk
    simp only [List.map_cons, List.mem_cons] at hk
    push_neg at hk
    obtain ⟨hk1, hk2⟩ := hk
    simp only [List.foldl_cons]
    rw [ih (headerSet acc kv.1 kv.2) k hk2]
    exact headerGet_headerSet_other acc kv.1 kv.2 k hk1

theorem headerGet_fold_lookup (hdr : HeaderMap) :
    ∀ (acc : HeaderMap) (k : String) (v : List String),
      (hdr.map Prod.fst).Nodup → hdr.lookup k = some v →
      headerGet (hdr.foldl (fun a kv => headerSet a kv.1 kv.2) acc) k = some v := by
  induction hdr with
  | nil =>
    intro acc k v _ hl
    simp [List.lookup] at hl
  | cons kv rest ih =>
    intro acc k v hnd hl
    simp only [List.map_cons, List.nodup_cons] at hnd
    obtain ⟨hk1, hnd'⟩ := hnd
    simp only [List.foldl_cons]
    by_cases hk : k = kv.1
    · have hv : v = kv.2 := by
        rcases kv with ⟨k0, v0⟩
        have hbeq : (k == k0) = true := by simpa using hk
        simp [List.lookup, hbeq] at hl
        exact hl.symm
      rw [hv, hk]
      rw [headerGet_fold_not_mem rest (headerSet acc kv.1 kv.2) kv.1 hk1]
      exact headerGet_headerSet_self acc kv.1 kv.2
    · have hl' : rest.lookup k = some v := by
        rcases kv with ⟨k0, v0⟩
        have hbeq : (k == k0) = false := by
          simp only [beq_eq_false_iff_ne, ne_eq]
          simpa using hk
        simpa [List.lookup, hbeq] using hl
      exact ih (headerSet acc kv.1 kv.2) k v hnd' hl'

/-- C5 counterexample: a caller-supplied `Content-Type: text/xml` header does
not survive — `WriteJSON` sets `Content-Type` to `application/json` after
merging the caller's headers, so the response carries `application/json`,
not the caller's value. -/
theorem writeJSON_content_type_counterexample :
    WriteJSON ⟨[], none, []⟩ 200 (some "payload") [[("Content-Type", ["text/xml"])]] =
        Except.ok ⟨[("Content-Type", ["application/json"])], some 200, ["payload"]⟩ ∧
      (["application/json"] : List String) ≠ ["text/xml"] := by
  exact ⟨rfl, by decide⟩

/-- C5 amended: `WriteJSON` writes every caller-supplied header into the
response, and a caller header replaces a like-named existing header — except
`Content-Type`, which `WriteJSON` sets to `application/json` after the
merge, so the caller cannot override it; the status code and serialized
payload are then written. -/
theorem writeJSON_merges_headers (w : ResponseWriter) (status : Nat) (out : String)
    (hdr : HeaderMap) (hnd : (hdr.map Prod.fst).Nodup) :
    ∃ res, WriteJSON w status (some out) [hdr] = Except.ok res ∧
      headerGet res.headers "Content-Type" = some ["application/json"] ∧
      (∀ k v, k ≠ "Content-Type" → hdr.lookup k = some v →
        headerGet res.headers k = some v) ∧
      res.status = some status ∧ res.body = w.body ++ [out] := by
  refine ⟨_, rfl, ?_, ?_, rfl, rfl⟩
  · exact headerGet_headerSet_self _ "Content-Type" ["application/json"]
  · intro k v hk hl
    rw [headerGet_headerSet_other _ "Content-Type" ["application/json"] k hk]
    exact headerGet_fold_lookup hdr w.headers k v hnd hl

theorem writeJSON_merges_headers_witness :
    ∃ res, WriteJSON ⟨[], none, []⟩ 200 (some "payload") [[("FOO", ["BAR"])]] =
        Except.ok res ∧
      headerGet res.headers "Content-Type" = some ["application/json"] ∧
      (∀ k v, k ≠ "Content-Type" → [("FOO", ["BAR"])].lookup k = some v →
        headerGet res.headers k = some v) ∧
      res.status = some 200 ∧ res.body = [] ++ ["payload"] :=
  writeJSON_merges_headers ⟨[], none, []⟩ 200 "payload" [("FOO", ["BAR"])] (by decide)

theorem lookup_append (es es' : List (List String × FNode)) (q : List String) :
    FS.lookup ⟨es ++ es'⟩ q =
      match FS.lookup ⟨es⟩ q with
      | some n => some n
      | none => FS.lookup ⟨es'⟩ q := by
  induction es with
  | nil => simp [FS.lookup, lookupEntries]
  | cons e rest ih =>
    by_cases he : e.1 = q
    · simp [FS.lookup, lookupEntries, he]
    · simp only [FS.lookup, lookupEntries, List.cons_append, if_neg he]
      exact ih

theorem path_step (done : List String) (c : String) (l : List String) (j : Nat) :
    done ++ (c :: l).take (j + 2) = (done ++ [c]) ++ l.take (j + 1) := by
  rw [List.take_succ_cons]
  simp

theorem take_ne_nil_of_lt {α : Type} (l : List α) (j : Nat) (hj : j < l.length) :
    l.take (j + 1) ≠ [] := by
  intro h
  have := List.length_take (j + 1) l
  rw [h] at this
  simp at this
  omega

theorem mkdirAllAux_spec (mode : Nat) :
    ∀ (todo : List String) (fs : FS) (done : List String),
      (∀ j, j < todo.length → fs.lookup (done ++ todo.take (j + 1)) ≠ some FNode.file) →
      ∃ fs', mkdirAllAux mode fs done todo = Except.ok fs' ∧
        (∀ q, fs'.lookup q = fs.lookup q ∨
          (fs.lookup q = none ∧ fs'.lookup q = some (FNode.dir mode))) ∧
        (∀ j, j < todo.length → fs'.lookup (done ++ todo.take (j + 1)) ≠ none) := by
  intro todo
  induction todo with
  | nil =>
    intro fs done _
    exact ⟨fs, rfl, fun q => Or.inl rfl, fun j hj => absurd hj (by simp)⟩
  | cons c rest ih =>
    intro fs done hyp
    have h0 : fs.lookup (done ++ [c]) ≠ some FNode.file := by
      have h := hyp 0 (by simp)
      simpa using h
    rcases hcur : fs.lookup (done ++ [c]) with _ | n
    · -- the component is missing: it is created as a directory, then recurse
      have hlook₁ : ∀ q, FS.lookup ⟨fs.entries ++ [(done ++ [c], FNode.dir mode)]⟩ q =
          match fs.lookup q with
          | some n => some n
          | none => if done ++ [c] = q then some (FNode.dir mode) else none := by
        intro q
        rw [lookup_append]
        rcases fs.lookup q with _ | n <;> simp [FS.lookup, lookupEntries]
      have hyp' : ∀ j, j < rest.length →
          FS.lookup ⟨fs.entries ++ [(done ++ [c], FNode.dir mode)]⟩
            ((done ++ [c]) ++ rest.take (j + 1)) ≠ some FNode.file := by
        intro j hj
        have hne : (done ++ [c]) ++ rest.take (j + 1) ≠ done ++ [c] := by
          intro heq
          have hlen := congrArg List.length heq
          rw [List.length_append] at hlen
          have htl : (rest.take (j + 1)).length = min (j + 1) rest.length :=
            List.length_take _ _
          omega
        have horig : fs.lookup ((done ++ [c]) ++ rest.take (j + 1)) ≠ some FNode.file := by
          have h := hyp (j + 1) (by simp only [List.length_cons]; omega)
          rw [path_step] at h
          exact h
        rw [hlook₁]
        rcases hq : fs.lookup ((done ++ [c]) ++ rest.take (j + 1)) with _ | m
        · have hne' : ¬ done ++ [c] = (done ++ [c]) ++ rest.take (j + 1) :=
            fun heq => hne heq.symm
          simp [hne']
        · rw [hq] at horig
          simpa using horig
      obtain ⟨fs', hrun, hchar, hcover⟩ :=
        ih ⟨fs.entries ++ [(done ++ [c], FNode.dir mode)]⟩ (done ++ [c]) hyp'
      refine ⟨fs', ?_, ?_, ?_⟩
      · simp only [mkdirAllAux]
        rw [hcur]
        exact hrun
      · intro q
        rcases hchar q with h | ⟨hnone₁, hdir⟩
        · have hv := hlook₁ q
          rcases hq : fs.lookup q with _ | n
          · rw [hq] at hv
            by_cases hqc : done ++ [c] = q
            · right
              refine ⟨rfl, ?_⟩
              rw [h, hv]
              simp [hqc]
            · left
              rw [h, hv]
              simp [hqc, hq]
          · rw [hq] at hv
            left
            rw [h, hv]
        · right
          refine ⟨?_, hdir⟩
          have hv := hlook₁ q
          rw [hnone₁] at hv
          rcases hq : fs.lookup q with _ | n
          · rfl
          · rw [hq] at hv
            exact absurd hv.symm (by simp)
      · intro j hj
        cases j with
        | zero =>
          have htake : done ++ (c :: rest).take 1 = done ++ [c] := by simp
          rw [htake]
          have hq1 : FS.lookup ⟨fs.entries ++ [(done ++ [c], FNode.dir mode)]⟩ (done ++ [c]) =
              some (FNode.dir mode) := by
            have hv := hlook₁ (done ++ [c])
            rw [hcur] at hv
            simpa using hv
          rcases hchar (done ++ [c]) with h | ⟨_, hdir⟩
          · rw [h, hq1]
            simp
          · rw [hdir]
            simp
        | succ j' =>
          have hj' : j' < rest.length := by
            simpa using Nat.lt_of_succ_lt_succ (by simpa using hj)
          have h := hcover j' hj'
          rw [path_step]
          exact h
    · rcases n with _ | m
      · exact absurd hcur h0
      · -- the component already exists as a directory: recurse on the same fs
        have hyp' : ∀ j, j < rest.length →
            fs.lookup ((done ++ [c]) ++ rest.take (j + 1)) ≠ some FNode.file := by
          intro j hj
          have h := hyp (j + 1) (by simpa using Nat.succ_lt_succ hj)
          rw [path_step] at h
          exact h
        obtain ⟨fs', hrun, hchar, hcover⟩ := ih fs (done ++ [c]) hyp'
        refine ⟨fs', ?_, hchar, ?_⟩
        · simp only [mkdirAllAux]
          rw [hcur]
          exact hrun
        · intro j hj
          cases j with
          | zero =>
            have htake : done ++ (c :: rest).take 1 = done ++ [c] := by simp
            rw [htake]
            rcases hchar (done ++ [c]) with h | ⟨_, hdir⟩
            · rw [h, hcur]
              simp
            · rw [hdir]
              simp
          | succ j' =>
            have hj' : j' < rest.length := by
              simpa using Nat.lt_of_succ_lt_succ (by simpa using hj)
            have h := hcover j' hj'
            rw [path_step]
            exact h

theorem hasFileAncestor_false_iff (fs : FS) (p : List String) :
    hasFileAncestor fs p = false ↔
      ∀ i, i < p.length → fs.lookup (p.take i) ≠ some FNode.file := by
  simp [hasFileAncestor, List.any_eq_false, List.mem_range]

theorem stat_errNotExist_parts (fs : FS) (p : List String)
    (hst : stat fs p = StatResult.errNotExist) :
    hasFileAncestor fs p = false ∧ fs.lookup p = none := by
  rcases hb : hasFileAncestor fs p with _ | _
  · rcases hq : fs.lookup p with _ | n
    · exact ⟨rfl, rfl⟩
    · rw [stat, hb] at hst
      simp [hq] at hst
  · rw [stat, hb] at hst
    simp at hst

theorem createDir_notExist_run (fs : FS) (p : List String)
    (hst : stat fs p = StatResult.errNotExist) :
    ∃ fs', CreateDirIfNotExists fs p = (fs', false) ∧
      (∀ q, fs'.lookup q = fs.lookup q ∨
        (fs.lookup q = none ∧ fs'.lookup q = some (FNode.dir 0o755))) ∧
      (∀ j, j < p.length → fs'.lookup (p.take (j + 1)) ≠ none) := by
  obtain ⟨hfa, hnone⟩ := stat_errNotExist_parts fs p hst
  have hyp : ∀ j, j < p.length → fs.lookup ([] ++ p.take (j + 1)) ≠ some FNode.file := by
    intro j hj
    rw [List.nil_append]
    rcases Nat.lt_or_ge (j + 1) p.length with hlt | hge
    · exact (hasFileAncestor_false_iff fs p).mp hfa (j + 1) hlt
    · have hj1 : j + 1 = p.length := by omega
      rw [hj1, List.take_length, hnone]
      simp
  obtain ⟨fs', hrun, hchar, hcover⟩ := mkdirAllAux_spec 0o755 p fs [] hyp
  refine ⟨fs', ?_, hchar, ?_⟩
  · rw [CreateDirIfNotExists, hst]
    rw [mkdirAll, hrun]
  · intro j hj
    have h := hcover j hj
    rw [List.nil_append] at h
    exact h

theorem createDir_never_errors (fs : FS) (p : List String) :
    (CreateDirIfNotExists fs p).2 = false := by
  rcases hst : stat fs p with n | _ | _
  · rw [CreateDirIfNotExists, hst]
  · obtain ⟨fs', hrun, -, -⟩ := createDir_notExist_run fs p hst
    rw [hrun]
  · rw [CreateDirIfNotExists, hst]

/-- C8 counterexample: with the file system holding a regular file at `a`,
the path `a/b` does not exist, yet `CreateDirIfNotExists` returns success
and creates nothing — `os.Stat` fails with `ENOTDIR` rather than `ENOENT`,
`os.IsNotExist` is false, and the function falls through to `return nil`
without calling `MkdirAll`. -/
theorem createDir_file_ancestor_counterexample :
    CreateDirIfNotExists ⟨[(["a"], FNode.file)]⟩ ["a", "b"] =
        (⟨[(["a"], FNode.file)]⟩, false) ∧
      FS.lookup ⟨[(["a"], FNode.file)]⟩ ["a", "b"] = none := by
  exact ⟨rfl, rfl⟩

/-- C8 amended: `CreateDirIfNotExists` never returns an error; if the path
exists (as a directory or otherwise) it returns success without touching the
file system; if `os.Stat` reports the path missing with `ENOENT`, it creates
the path and every missing ancestor as directories with mode 0755 (when an
ancestor exists as a non-directory the stat error is `ENOTDIR`, not
`ENOENT`, and the call returns success without creating anything); and a
second call on the same path leaves the file system unchanged and returns
no error. -/
theorem createDirIfNotExists_spec :
    (∀ (fs : FS) (p : List String), (CreateDirIfNotExists fs p).2 = false) ∧
      (∀ (fs : FS) (p : List String) (n : FNode), fs.lookup p = some n →
        CreateDirIfNotExists fs p = (fs, false)) ∧
      (∀ (fs : FS) (p : List String), stat fs p = StatResult.errNotExist →
        ∀ j, j < p.length → fs.lookup (p.take (j + 1)) = none →
          FS.lookup (CreateDirIfNotExists fs p).1 (p.take (j + 1)) =
            some (FNode.dir 0o755)) ∧
      (∀ (fs : FS) (p : List String),
        CreateDirIfNotExists (CreateDirIfNotExists fs p).1 p =
          ((CreateDirIfNotExists fs p).1, false)) := by
  refine ⟨createDir_never_errors, ?_, ?_, ?_⟩
  · intro fs p n hn
    rcases hst : stat fs p with m | _ | _
    · rw [CreateDirIfNotExists, hst]
    · obtain ⟨-, hnone⟩ := stat_errNotExist_parts fs p hst
      rw [hn] at hnone
      exact absurd hnone (by simp)
    · rw [CreateDirIfNotExists, hst]
  · intro fs p hst j hj hmiss
    obtain ⟨fs', hrun, hchar, hcover⟩ := createDir_notExist_run fs p hst
    rw [hrun]
    rcases hchar (p.take (j + 1)) with h | ⟨-, hdir⟩
    · have h' := hcover j hj
      rw [h, hmiss] at h'
      exact absurd rfl h'
    · exact hdir
  · intro fs p
    rcases hst : stat fs p with n | _ | _
    · have h1 : CreateDirIfNotExists fs p = (fs, false) := by
        rw [CreateDirIfNotExists, hst]
      rw [h1]
      simpa using h1
    · obtain ⟨hfa, hnone⟩ := stat_errNotExist_parts fs p hst
      obtain ⟨fs', hrun, hchar, hcover⟩ := createDir_notExist_run fs p hst
      rw [hrun]
      show CreateDirIfNotExists fs' p = (fs', false)
      by_cases hpnil : p = []
      · -- p = []: mkdirAll is a no-op, so the second call repeats the first
        subst hpnil
        have h1 : CreateDirIfNotExists fs ([] : List String) = (fs, false) := by
          rw [CreateDirIfNotExists, hst]
          rfl
        have hfs' : fs = fs' := by
          have h2 := h1.symm.trans hrun
          simpa using h2
        rw [← hfs']
        exact h1
      · -- p ≠ []: after creation the path exists, so the second call finds it
        have hplen : 0 < p.length := List.length_pos.mpr hpnil
        have hlast : fs'.lookup p ≠ none := by
          have h := hcover (p.length - 1) (by omega)
          have htake : p.take (p.length - 1 + 1) = p := by
            have hln : p.length - 1 + 1 = p.length := by omega
            rw [hln, List.take_length]
          rw [htake] at h
          exact h
        have hfa' : hasFileAncestor fs' p = false := by
          rw [hasFileAncestor_false_iff]
          intro i hi
          rcases hchar (p.take i) with h | ⟨-, hdir⟩
          · rw [h]
            exact (hasFileAncestor_false_iff fs p).mp hfa i hi
          · rw [hdir]
            simp
        rcases hq : fs'.lookup p with _ | m
        · exact absurd hq hlast
        · have hst' : stat fs' p = StatResult.found m := by
            rw [stat, hfa']
            simp [hq]
          rw [CreateDirIfNotExists, hst']
    · have h1 : CreateDirIfNotExists fs p = (fs, false) := by
        rw [CreateDirIfNotExists, hst]
      rw [h1]
      simpa using h1

theorem createDirIfNotExists_spec_witness :
    FS.lookup (CreateDirIfNotExists ⟨[]⟩ ["a", "b"]).1 (["a", "b"].take 2) =
      some (FNode.dir 0o755) :=
  createDirIfNotExists_spec.2.2.1 ⟨[]⟩ ["a", "b"] (by decide) 1 (by decide) (by decide)

end Toolkit
